import Mathlib

/-!
Verification of the speedmeter usage-accounting and sampling engine
(src/speedmeter.py) against its specification.

The Python source is shallowly embedded: dictionaries become association
lists with first-match lookup and in-place update (Python dict update
keeps the position of an existing key and appends a new one), Python
integers become Int, float time values and rates become Rat, and code
that may raise becomes Except / Option valued.
-/

namespace SpeedMeter

/-! ## Python dict primitives -/

/-- First-match lookup in an association list, the semantics of a Python
dict read (keys of a Python dict are unique, so first match is the match). -/
def dictGet {α : Type} : List (String × α) → String → Option α
  | [], _ => none
  | (k2, v) :: rest, k => if k2 = k then some v else dictGet rest k

/-- Python dict assignment: replace the value at an existing key in place,
otherwise append the new binding at the end. -/
def dictSet {α : Type} : List (String × α) → String → α → List (String × α)
  | [], k, v => [(k, v)]
  | (k2, v2) :: rest, k, v =>
      if k2 = k then (k, v) :: rest else (k2, v2) :: dictSet rest k v

/-- Python str.startswith on explicit character lists. -/
def charsStartWith : List Char → List Char → Bool
  | _, [] => true
  | [], _ :: _ => false
  | c :: cs, p :: ps => (c == p) && charsStartWith cs ps

/-- Python str.startswith: does s start with pre. -/
def strStartsWith (s pre : String) : Bool :=
  charsStartWith s.data pre.data

theorem dictGet_dictSet {α : Type} (m : List (String × α)) (k k2 : String) (v : α) :
    dictGet (dictSet m k v) k2 = if k = k2 then some v else dictGet m k2 := by
  induction m with
  | nil =>
    by_cases h : k = k2 <;> simp [dictSet, dictGet, h]
  | cons p rest ih =>
    obtain ⟨k3, v3⟩ := p
    by_cases h3 : k3 = k
    · subst h3
      by_cases h : k3 = k2 <;> simp [dictSet, dictGet, h]
    · by_cases h : k3 = k2
      · subst h
        have hne : ¬ k = k3 := fun he => h3 he.symm
        simp [dictSet, dictGet, h3, hne, ih]
      · simp [dictSet, dictGet, h3, h, ih]

/-! ## Date keys (today_key / month_key, lines 128-134) -/

/-- Local date-time, only the calendar fields the key formatting uses. -/
structure DateTime where
  year : Nat
  month : Nat
  day : Nat
deriving DecidableEq

/-- Zero-pad to two digits, the %m / %d strftime fields. -/
def pad2 (n : Nat) : String :=
  if n < 10 then "0" ++ toString n else toString n

/-- Zero-pad to four digits, the %Y strftime field for common years. -/
def pad4 (n : Nat) : String :=
  if n < 10 then "000" ++ toString n
  else if n < 100 then "00" ++ toString n
  else if n < 1000 then "0" ++ toString n
  else toString n

/-- strftime "%Y-%m-%d" (today_key, line 128). -/
def today_key (dt : DateTime) : String :=
  pad4 dt.year ++ "-" ++ pad2 dt.month ++ "-" ++ pad2 dt.day

/-- strftime "%Y-%m" (month_key, line 132). -/
def month_key (dt : DateTime) : String :=
  pad4 dt.year ++ "-" ++ pad2 dt.month

/-! ## Usage ledger (UsageTotals / UsageStore, lines 203-247) -/

/-- UsageTotals dataclass (lines 203-206). -/
structure UsageTotals where
  download_bytes : Int
  upload_bytes : Int
deriving DecidableEq

/-- One per-day value record: the inner dict with keys "down" and "up". -/
structure DayVals where
  down : Int
  up : Int
deriving DecidableEq

/-- UsageStore dataclass (lines 208-211): by_day maps day-key strings to
per-day down/up byte totals. -/
structure UsageStore where
  by_day : List (String × DayVals)
deriving DecidableEq

/-- UsageStore.add_usage (lines 213-218): insert a zero record for a missing
day key, then accumulate the clamped deltas into it. -/
def add_usage (s : UsageStore) (dt : DateTime) (down_delta up_delta : Int) : UsageStore :=
  let dkey := today_key dt
  let cur := (dictGet s.by_day dkey).getD ⟨0, 0⟩
  ⟨dictSet s.by_day dkey ⟨cur.down + max 0 down_delta, cur.up + max 0 up_delta⟩⟩

/-- UsageStore.get_today (lines 220-225): the current day record, or zero
totals when the day key is absent. -/
def get_today (s : UsageStore) (dt : DateTime) : UsageTotals :=
  match dictGet s.by_day (today_key dt) with
  | some d => ⟨d.down, d.up⟩
  | none => ⟨0, 0⟩

/-- UsageStore.get_month (lines 227-235): fold over by_day items, adding the
values of every day key that starts with the month key. -/
def get_month (s : UsageStore) (dt : DateTime) : UsageTotals :=
  let mkey := month_key dt
  let r := s.by_day.foldl
    (fun (acc : Int × Int) p =>
      if strStartsWith p.1 mkey then (acc.1 + p.2.down, acc.2 + p.2.up) else acc)
    (0, 0)
  ⟨r.1, r.2⟩

/-- UsageStore.clear_today (lines 244-247): reset the current day record to
zero only when the day key already exists; an absent key is left absent. -/
def clear_today (s : UsageStore) (dt : DateTime) : UsageStore :=
  let dkey := today_key dt
  match dictGet s.by_day dkey with
  | some _ => ⟨dictSet s.by_day dkey ⟨0, 0⟩⟩
  | none => s

/-! ## Claim C5: month aggregation is the prefix-filtered sum -/

theorem get_month_foldl_general (mkey : String) (l : List (String × DayVals))
    (a b : Int) :
    l.foldl
      (fun (acc : Int × Int) p =>
        if strStartsWith p.1 mkey then (acc.1 + p.2.down, acc.2 + p.2.up) else acc)
      (a, b)
    = (a + ((l.filter fun p => strStartsWith p.1 mkey).map fun p => p.2.down).sum,
       b + ((l.filter fun p => strStartsWith p.1 mkey).map fun p => p.2.up).sum) := by
  induction l generalizing a b with
  | nil => simp
  | cons p rest ih =>
    by_cases h : strStartsWith p.1 mkey
    · simp only [List.foldl_cons, List.filter_cons, h, if_pos, List.map_cons, List.sum_cons]
      rw [ih, add_assoc, add_assoc]
    · simp only [List.foldl_cons, List.filter_cons, h, List.map_cons]
      simp only [if_neg h, Bool.false_eq_true, ite_false]
      exact ih a b

/-- C5: get_month returns the componentwise sum of the down and up values of
exactly those day keys that start with the YYYY-MM month key of the query
date, i.e. the sum of the per-day totals over the month-prefixed entries. -/
theorem get_month_is_prefix_sum (s : UsageStore) (dt : DateTime) :
    get_month s dt =
      ⟨((s.by_day.filter fun p => strStartsWith p.1 (month_key dt)).map
          fun p => p.2.down).sum,
        ((s.by_day.filter fun p => strStartsWith p.1 (month_key dt)).map
          fun p => p.2.up).sum⟩ := by
  simp only [get_month]
  rw [get_month_foldl_general]
  simp

/-! ## Claim C10: queries are pure reads and clear_today on an absent day is a no-op -/

theorem get_month_no_match (s : UsageStore) (dt : DateTime)
    (h : ∀ p ∈ s.by_day, strStartsWith p.1 (month_key dt) = false) :
    get_month s dt = ⟨0, 0⟩ := by
  rw [get_month_is_prefix_sum]
  have hf : s.by_day.filter (fun p => strStartsWith p.1 (month_key dt)) = [] := by
    rw [List.filter_eq_nil_iff]
    intro p hp
    simp [h p hp]
  rw [hf]
  simp

/-- C10: get_today and get_month are pure queries of the store (in this
embedding they are functions from the store, mirroring the source bodies,
which contain no assignment to by_day); an absent day or month reads as zero
totals without creating an entry, and clear_today for a day with no existing
entry returns the store entirely unchanged (the source only assigns when the
key is already present, lines 244-247). -/
theorem queries_do_not_mutate (s : UsageStore) (dt : DateTime)
    (hday : dictGet s.by_day (today_key dt) = none)
    (hmonth : ∀ p ∈ s.by_day, strStartsWith p.1 (month_key dt) = false) :
    clear_today s dt = s ∧ get_today s dt = ⟨0, 0⟩ ∧ get_month s dt = ⟨0, 0⟩ := by
  refine ⟨?_, ?_, get_month_no_match s dt hmonth⟩
  · simp [clear_today, hday]
  · simp [get_today, hday]

/-- Witness for C10 at a concrete store and date: the store holds only a
January 2024 day, queried at 2024-02-10. -/
theorem queries_do_not_mutate_witness :
    clear_today ⟨[("2024-01-05", ⟨3, 4⟩)]⟩ ⟨2024, 2, 10⟩ = ⟨[("2024-01-05", ⟨3, 4⟩)]⟩ ∧
    get_today ⟨[("2024-01-05", ⟨3, 4⟩)]⟩ ⟨2024, 2, 10⟩ = ⟨0, 0⟩ ∧
    get_month ⟨[("2024-01-05", ⟨3, 4⟩)]⟩ ⟨2024, 2, 10⟩ = ⟨0, 0⟩ :=
  queries_do_not_mutate ⟨[("2024-01-05", ⟨3, 4⟩)]⟩ ⟨2024, 2, 10⟩ (by decide) (by decide)

/-! ## Sampling loop delta computation (NetMonitor.run, lines 324-340)

The per-tick loop over the included interfaces: pernic is the map returned
by the per-NIC counter read (an interface absent from it hits the continue
branch), last is the _last_pernic baseline dict, and the two Int
accumulators are down_delta and up_delta. -/

/-- Cumulative per-interface counters (the bytes_recv and bytes_sent fields
of one per-NIC counter entry). -/
structure NetCounters where
  bytes_recv : Int
  bytes_sent : Int
deriving DecidableEq

/-- One pass of the for-loop body over the remaining interface names
(lines 327-336): a missing counter is skipped; otherwise the baseline
defaults to the current reading, each direction is clamped with max 0,
the baseline is updated and the clamped deltas are accumulated. -/
def tickLoop (ifaces : List String) (pernic : String → Option NetCounters)
    (last : List (String × (Int × Int))) (down up : Int) :
    List (String × (Int × Int)) × Int × Int :=
  match ifaces with
  | [] => (last, down, up)
  | name :: rest =>
    match pernic name with
    | none => tickLoop rest pernic last down up
    | some c =>
      let prev := (dictGet last name).getD (c.bytes_recv, c.bytes_sent)
      let d_down := max 0 (c.bytes_recv - prev.1)
      let d_up := max 0 (c.bytes_sent - prev.2)
      tickLoop rest pernic (dictSet last name (c.bytes_recv, c.bytes_sent))
        (down + d_down) (up + d_up)

/-- The clamped per-direction delta one interface contributes against a given
baseline dict: max(0, current - previous) per direction, zero when the
counter read yields nothing for it (the continue branch). -/
def ifaceDelta (pernic : String → Option NetCounters)
    (last : List (String × (Int × Int))) (name : String) : Int × Int :=
  match pernic name with
  | none => (0, 0)
  | some c =>
    let prev := (dictGet last name).getD (c.bytes_recv, c.bytes_sent)
    (max 0 (c.bytes_recv - prev.1), max 0 (c.bytes_sent - prev.2))

theorem ifaceDelta_nonneg (pernic : String → Option NetCounters)
    (last : List (String × (Int × Int))) (name : String) :
    0 ≤ (ifaceDelta pernic last name).1 ∧ 0 ≤ (ifaceDelta pernic last name).2 := by
  unfold ifaceDelta
  cases pernic name with
  | none => simp
  | some c => exact ⟨le_max_left 0 _, le_max_left 0 _⟩

theorem ifaceDelta_dictSet_other (pernic : String → Option NetCounters)
    (last : List (String × (Int × Int))) (name n : String) (v : Int × Int)
    (hne : name ≠ n) :
    ifaceDelta pernic (dictSet last name v) n = ifaceDelta pernic last n := by
  unfold ifaceDelta
  cases pernic n with
  | none => rfl
  | some c => rw [dictGet_dictSet, if_neg hne]

theorem tickLoop_deltas (ifaces : List String) (pernic : String → Option NetCounters)
    (last : List (String × (Int × Int))) (down up : Int) (hnd : ifaces.Nodup) :
    (tickLoop ifaces pernic last down up).2.1
      = down + (ifaces.map fun n => (ifaceDelta pernic last n).1).sum ∧
    (tickLoop ifaces pernic last down up).2.2
      = up + (ifaces.map fun n => (ifaceDelta pernic last n).2).sum := by
  induction ifaces generalizing last down up with
  | nil => simp [tickLoop]
  | cons name rest ih =>
    have hrest : rest.Nodup := hnd.of_cons
    have hnotmem : name ∉ rest := by
      intro hmem
      exact (List.nodup_cons.mp hnd).1 hmem
    cases hp : pernic name with
    | none =>
      have hz : ifaceDelta pernic last name = (0, 0) := by
        unfold ifaceDelta
        rw [hp]
      obtain ⟨h1, h2⟩ := ih last down up hrest
      constructor
      · simp only [tickLoop, hp, List.map_cons, List.sum_cons, hz]
        rw [h1]
        ring
      · simp only [tickLoop, hp, List.map_cons, List.sum_cons, hz]
        rw [h2]
        ring
    | some c =>
      have hval : ifaceDelta pernic last name
          = (max 0 (c.bytes_recv - (((dictGet last name).getD (c.bytes_recv, c.bytes_sent)).1)),
             max 0 (c.bytes_sent - (((dictGet last name).getD (c.bytes_recv, c.bytes_sent)).2))) := by
        unfold ifaceDelta
        rw [hp]
      have hpreserve : (rest.map fun n =>
            (ifaceDelta pernic (dictSet last name (c.bytes_recv, c.bytes_sent)) n).1)
          = rest.map fun n => (ifaceDelta pernic last n).1 := by
        apply List.map_congr_left
        intro n hn
        rw [ifaceDelta_dictSet_other]
        intro he
        exact hnotmem (he ▸ hn)
      have hpreserve2 : (rest.map fun n =>
            (ifaceDelta pernic (dictSet last name (c.bytes_recv, c.bytes_sent)) n).2)
          = rest.map fun n => (ifaceDelta pernic last n).2 := by
        apply List.map_congr_left
        intro n hn
        rw [ifaceDelta_dictSet_other]
        intro he
        exact hnotmem (he ▸ hn)
      obtain ⟨h1, h2⟩ := ih (dictSet last name (c.bytes_recv, c.bytes_sent))
        (down + max 0 (c.bytes_recv - (((dictGet last name).getD (c.bytes_recv, c.bytes_sent)).1)))
        (up + max 0 (c.bytes_sent - (((dictGet last name).getD (c.bytes_recv, c.bytes_sent)).2)))
        hrest
      constructor
      · simp only [tickLoop, hp]
        rw [h1, hpreserve, List.map_cons, List.sum_cons, hval]
        ring
      · simp only [tickLoop, hp]
        rw [h2, hpreserve2, List.map_cons, List.sum_cons, hval]
        ring

/-! ## Claim C1: deltas are clamped, never negative, and sum per tick -/

/-- C1: for any counter readings and baselines, each tracked interface
contributes the clamped per-direction delta max(0, current - previous)
(captured by ifaceDelta, the loop body of lines 331-333), the tick-level
down_delta and up_delta are the sums of these clamped contributions over the
tracked interfaces, and both are never negative even when a reading
decreases between ticks. The Nodup hypothesis reflects that the loop ranges
over a Python set of interface names. -/
theorem tick_deltas_clamped_sums (ifaces : List String)
    (pernic : String → Option NetCounters)
    (last : List (String × (Int × Int))) (hnd : ifaces.Nodup) :
    (tickLoop ifaces pernic last 0 0).2.1
      = (ifaces.map fun n => (ifaceDelta pernic last n).1).sum ∧
    (tickLoop ifaces pernic last 0 0).2.2
      = (ifaces.map fun n => (ifaceDelta pernic last n).2).sum ∧
    0 ≤ (tickLoop ifaces pernic last 0 0).2.1 ∧
    0 ≤ (tickLoop ifaces pernic last 0 0).2.2 ∧
    ∀ n, 0 ≤ (ifaceDelta pernic last n).1 ∧ 0 ≤ (ifaceDelta pernic last n).2 := by
  obtain ⟨h1, h2⟩ := tickLoop_deltas ifaces pernic last 0 0 hnd
  rw [zero_add] at h1 h2
  refine ⟨h1, h2, ?_, ?_, fun n => ifaceDelta_nonneg pernic last n⟩
  · rw [h1]
    apply List.sum_nonneg
    intro a ha
    obtain ⟨n, _, hn⟩ := List.mem_map.mp ha
    exact hn ▸ (ifaceDelta_nonneg pernic last n).1
  · rw [h2]
    apply List.sum_nonneg
    intro a ha
    obtain ⟨n, _, hn⟩ := List.mem_map.mp ha
    exact hn ▸ (ifaceDelta_nonneg pernic last n).2

/-- Witness for C1 at a concrete tick: one interface whose received-bytes
reading decreased (5 down to 3) and whose sent-bytes reading increased
(4 up to 10): the download delta clamps to 0, the upload delta is 6. -/
theorem tick_deltas_clamped_sums_witness :
    (tickLoop ["eth0"] (fun n => if n = "eth0" then some ⟨3, 10⟩ else none)
        [("eth0", (5, 4))] 0 0).2.1 = 0 ∧
    (tickLoop ["eth0"] (fun n => if n = "eth0" then some ⟨3, 10⟩ else none)
        [("eth0", (5, 4))] 0 0).2.2 = 6 ∧
    0 ≤ (tickLoop ["eth0"] (fun n => if n = "eth0" then some ⟨3, 10⟩ else none)
        [("eth0", (5, 4))] 0 0).2.1 := by
  have h := tick_deltas_clamped_sums ["eth0"]
    (fun n => if n = "eth0" then some ⟨3, 10⟩ else none) [("eth0", (5, 4))] (by decide)
  exact ⟨h.1.trans (by decide), h.2.1.trans (by decide), h.2.2.1⟩

/-! ## Claim C4: a failed counter read skips the tick and keeps baselines -/

/-- C4: when the counter read yields nothing for the tracked interfaces
(the pernic.get miss at lines 328-330), the whole delta computation is
skipped: the loop terminates normally with zero deltas and the baseline
dict exactly as before; moreover any single interface whose read failed
keeps its baseline untouched through the tick regardless of the others. -/
theorem read_failure_skips_tick (ifaces : List String)
    (pernic : String → Option NetCounters)
    (last : List (String × (Int × Int))) (down up : Int) :
    ((∀ n ∈ ifaces, pernic n = none) →
      tickLoop ifaces pernic last down up = (last, down, up)) ∧
    (∀ n, pernic n = none →
      dictGet (tickLoop ifaces pernic last down up).1 n = dictGet last n) := by
  induction ifaces generalizing last down up with
  | nil => exact ⟨fun _ => rfl, fun n _ => rfl⟩
  | cons name rest ih =>
    constructor
    · intro hall
      have hname : pernic name = none := hall name (List.mem_cons_self name rest)
      simp only [tickLoop, hname]
      exact (ih last down up).1 (fun n hn => hall n (List.mem_cons_of_mem name hn))
    · intro n hn
      cases hp : pernic name with
      | none =>
        simp only [tickLoop, hp]
        exact (ih last down up).2 n hn
      | some c =>
        have hne : name ≠ n := by
          intro he
          rw [he, hn] at hp
          exact Option.noConfusion hp
        simp only [tickLoop, hp]
        rw [(ih _ _ _).2 n hn, dictGet_dictSet, if_neg hne]

/-- Witness for C4 at a concrete tick: the read returns nothing at all, the
single tracked interface keeps its baseline (3, 4) and the deltas stay 0. -/
theorem read_failure_skips_tick_witness :
    tickLoop ["eth0"] (fun _ => none) [("eth0", (3, 4))] 0 0 = ([("eth0", (3, 4))], 0, 0) ∧
    dictGet (tickLoop ["eth0"] (fun _ => none) [("eth0", (3, 4))] 0 0).1 "eth0"
      = dictGet [("eth0", (3, 4))] "eth0" := by
  have h := read_failure_skips_tick ["eth0"] (fun _ => none) [("eth0", (3, 4))] 0 0
  exact ⟨h.1 (fun n _ => rfl), h.2 "eth0" rfl⟩

/-! ## EMA smoothing (NetMonitor.run, lines 342-356, and the preferences
save handler, lines 951-953) -/

/-- The engine-relevant configuration fields (class Config, lines 142-154):
smoothing_seconds (0 disables EMA) and the optional pinned NIC name. -/
structure EngineConfig where
  smoothing_seconds : Rat
  nic_name : Option String

/-- The smoothing portion of one tick (lines 342-356). The EMA accumulators
_ema_down_bps and _ema_up_bps are always assigned and cleared together in
the source (lines 294-295, 346-351, 952-953), so they are modelled as one
optional pair. Returns the new EMA state and the exposed current rates. -/
def smoothStep (interval : Rat) (cfg : EngineConfig) (ema : Option (Rat × Rat))
    (raw_down raw_up : Rat) : Option (Rat × Rat) × Rat × Rat :=
  let s := max 0 cfg.smoothing_seconds
  if 0 < s then
    let alpha := min 1 (max (1 / 100) (interval / s))
    match ema with
    | none => (some (raw_down, raw_up), raw_down, raw_up)
    | some (ed, eu) =>
      let ed2 := alpha * raw_down + (1 - alpha) * ed
      let eu2 := alpha * raw_up + (1 - alpha) * eu
      (some (ed2, eu2), ed2, eu2)
  else
    (ema, raw_down, raw_up)

/-- Effect of the preferences save handler on the monitor (on_save,
lines 951-953): the new config object is installed and both EMA
accumulators are set back to None, whatever they held. -/
def on_save_monitor_update (newCfg : EngineConfig)
    (_cfg : EngineConfig) (_ema : Option (Rat × Rat)) :
    EngineConfig × Option (Rat × Rat) :=
  (newCfg, none)

/-! ## Claim C2: smoothing bypass and EMA reseed -/

/-- C2: with smoothing_seconds = 0 the exposed current rates of a tick are
exactly that tick's raw rates (the EMA branch is bypassed); the only place
the program disables or reconfigures smoothing is the preferences save
handler, which always clears the stored EMA state, so once smoothing is
positive again the next tick reseeds the EMA from its own raw sample
(and exposes it) instead of resuming a stale value. -/
theorem smoothing_bypass_and_reseed (interval : Rat) (cfg : EngineConfig)
    (ema : Option (Rat × Rat)) (raw_down raw_up : Rat) (newCfg : EngineConfig) :
    (cfg.smoothing_seconds = 0 →
      (smoothStep interval cfg ema raw_down raw_up).2 = (raw_down, raw_up)) ∧
    (on_save_monitor_update newCfg cfg ema).2 = none ∧
    (0 < newCfg.smoothing_seconds →
      smoothStep interval newCfg (on_save_monitor_update newCfg cfg ema).2 raw_down raw_up
        = (some (raw_down, raw_up), raw_down, raw_up)) := by
  refine ⟨?_, rfl, ?_⟩
  · intro h0
    have hs : max 0 cfg.smoothing_seconds = 0 := by rw [h0, max_self]
    simp [smoothStep, hs]
  · intro hpos
    have hs : (0 : Rat) < max 0 newCfg.smoothing_seconds := lt_max_of_lt_right hpos
    simp [smoothStep, on_save_monitor_update, hs]

/-- Witness for C2 at concrete values: interval 1/2, a stale EMA of
(100, 200), raw rates (7, 9); the bypass exposes the raw rates, and after a
save that re-enables smoothing at 5 seconds the tick reseeds to (7, 9). -/
theorem smoothing_bypass_and_reseed_witness :
    (smoothStep (1 / 2) ⟨0, none⟩ (some (100, 200)) 7 9).2 = (7, 9) ∧
    (on_save_monitor_update ⟨5, none⟩ ⟨0, none⟩ (some (100, 200))).2 = none ∧
    smoothStep (1 / 2) ⟨5, none⟩
        (on_save_monitor_update ⟨5, none⟩ ⟨0, none⟩ (some (100, 200))).2 7 9
      = (some (7, 9), 7, 9) := by
  have h := smoothing_bypass_and_reseed (1 / 2) ⟨0, none⟩ (some (100, 200)) 7 9 ⟨5, none⟩
  exact ⟨h.1 rfl, h.2.1, h.2.2 (by norm_num)⟩

/-! ## Rolling 10-second window (NetMonitor.run, lines 358-374) -/

/-- The eviction while-loop (lines 363-366): popleft entries from the front
while the front timestamp is strictly older than the cutoff, stopping at
the first entry that is not. -/
def evictOld (tcut : Rat) : List (Rat × Rat) → List (Rat × Rat)
  | [] => []
  | (t, v) :: rest => if t < tcut then evictOld tcut rest else (t, v) :: rest

/-- One direction of the rolling-average update (lines 358-374): append
(now, raw) to the history, evict entries older than now - 10, and expose the
arithmetic mean of what remains, or 0 when nothing remains. Returns the new
history and the exposed average. -/
def rollingStep (hist : List (Rat × Rat)) (now raw : Rat) :
    List (Rat × Rat) × Rat :=
  let h2 := evictOld (now - 10) (hist ++ [(now, raw)])
  (h2, if h2 = [] then 0 else (h2.map fun p => p.2).sum / (h2.length : Rat))

theorem evictOld_eq_filter (tcut : Rat) (l : List (Rat × Rat))
    (hsort : l.Pairwise fun a b => a.1 ≤ b.1) :
    evictOld tcut l = l.filter fun p => decide (tcut ≤ p.1) := by
  induction l with
  | nil => rfl
  | cons p rest ih =>
    obtain ⟨t, v⟩ := p
    obtain ⟨hhead, htail⟩ := List.pairwise_cons.mp hsort
    by_cases h : t < tcut
    · have hnot : ¬ tcut ≤ t := not_le.mpr h
      simp only [evictOld, if_pos h, List.filter_cons, decide_eq_true_eq]
      rw [if_neg (by simpa using hnot)]
      exact ih htail
    · have hle : tcut ≤ t := not_lt.mp h
      simp only [evictOld, if_neg h, List.filter_cons]
      rw [if_pos (by simpa using hle)]
      have hrest : rest.filter (fun p => decide (tcut ≤ p.1)) = rest := by
        rw [List.filter_eq_self]
        intro a ha
        simpa using le_trans hle (hhead a ha)
      rw [hrest]

/-! ## Claim C9: the rolling view retains exactly the last 10 seconds -/

/-- C9: for a history whose timestamps are in order and not later than now
(ticks append strictly increasing wall-clock stamps), the step appends
(now, raw), evicts exactly the entries strictly older than now - 10, and
exposes the arithmetic mean of the retained raw rates, 0 when none remain. -/
theorem rolling_window_step (hist : List (Rat × Rat)) (now raw : Rat)
    (hsort : hist.Pairwise fun a b => a.1 ≤ b.1)
    (hpast : ∀ p ∈ hist, p.1 ≤ now) :
    rollingStep hist now raw
      = ((hist ++ [(now, raw)]).filter fun p => decide (now - 10 ≤ p.1),
          if ((hist ++ [(now, raw)]).filter fun p => decide (now - 10 ≤ p.1)) = []
          then 0
          else (((hist ++ [(now, raw)]).filter fun p => decide (now - 10 ≤ p.1)).map
              fun p => p.2).sum
            / (((hist ++ [(now, raw)]).filter fun p => decide (now - 10 ≤ p.1)).length : Rat)) := by
  have hsort2 : (hist ++ [(now, raw)]).Pairwise fun a b => a.1 ≤ b.1 := by
    rw [List.pairwise_append]
    refine ⟨hsort, List.pairwise_singleton _ _, ?_⟩
    intro a ha b hb
    rw [List.mem_singleton] at hb
    rw [hb]
    exact hpast a ha
  have he := evictOld_eq_filter (now - 10) (hist ++ [(now, raw)]) hsort2
  simp only [rollingStep, he]

/-- Witness for C9 at the concrete trace of the claim: samples at times
0, 5 and 11 with raw rates 10, 20 and 30; at time 11 the entry from time 0
is evicted and the exposed value is the mean of 20 and 30, namely 25. -/
theorem rolling_window_step_witness :
    rollingStep [(0, 10), (5, 20)] 11 30 = ([(5, 20), (11, 30)], 25) := by
  have h := rolling_window_step [(0, 10), (5, 20)] 11 30 (by norm_num) (by norm_num)
  rw [h]
  have hf : ((([(0, 10), (5, 20)] ++ [(11, 30)]) : List (Rat × Rat)).filter
        fun p : Rat × Rat => decide ((11 : Rat) - 10 ≤ p.1))
      = [(5, 20), (11, 30)] := by
    norm_num [List.filter]
  rw [hf, if_neg (by simp)]
  norm_num [List.map, List.sum_cons]

/-! ## Persistence inside the sampling loop (NetMonitor.run, lines 376-393)

The tail of each tick accumulates the tick deltas into the store and, on a
whole ten-second boundary (int(now) % 10 == 0), calls repo.save. That call
sits directly in the loop body with no try/except around it (lines 380-381),
so a raising save propagates out of run and ends the sampling thread; the
final save after the loop (lines 389-393) is wrapped in try/except pass.
A save attempt is modelled by its outcome: ok, or error for a raise such as
disk full or permission denied. -/

/-- The ledger-update and periodic-persist step of one tick (lines 376-381):
add_usage always runs; when the tick falls on a save boundary the save
outcome decides whether the loop body completes (ok with the updated store)
or the exception escapes (error). -/
def tickPersist (store : UsageStore) (dt : DateTime) (down_delta up_delta : Int)
    (nowInt : Int) (saveResult : Except Unit Unit) : Except Unit UsageStore :=
  let store2 := add_usage store dt down_delta up_delta
  if nowInt % 10 = 0 then
    match saveResult with
    | .ok _ => .ok store2
    | .error e => .error e
  else
    .ok store2

/-- The final save on exit (lines 389-393): try repo.save, except pass; the
in-memory store is unaffected whether or not the save raises. -/
def finalSave (store : UsageStore) (_saveResult : Except Unit Unit) : UsageStore :=
  store

/-! ## Claim C3: a failing periodic save is NOT ignored by the loop

The claim states a persistence failure during the periodic save is ignored
and the loop keeps ticking; in the source the periodic save is the one
statement of the loop body outside any try/except, so its exception
propagates and terminates the sampling thread. This theorem evaluates the
embedded loop body at such a failing tick: at a save boundary (now = 20)
with a raising save the body yields error instead of the updated store,
while the shutdown-time final save swallows the same failure. -/
theorem periodic_save_failure_crashes :
    tickPersist ⟨[]⟩ ⟨2024, 5, 1⟩ 100 50 20 (Except.error ())
      = Except.error () ∧
    tickPersist ⟨[]⟩ ⟨2024, 5, 1⟩ 100 50 21 (Except.error ())
      = Except.ok (add_usage ⟨[]⟩ ⟨2024, 5, 1⟩ 100 50) ∧
    finalSave (add_usage ⟨[]⟩ ⟨2024, 5, 1⟩ 100 50) (Except.error ())
      = add_usage ⟨[]⟩ ⟨2024, 5, 1⟩ 100 50 := by
  refine ⟨rfl, ?_, rfl⟩
  simp [tickPersist]

/-! ## JSON repository (UsageRepository, lines 252-274, and
UsageStore.to_json / from_json, lines 237-242)

The persisted document is modelled by its parsed JSON value; json.dump
followed by json.load is the identity on the string-keyed, integer-valued
documents this program writes, so the file is modelled as holding the value
itself, or as missing, or as content json.load rejects. -/

/-- A JSON value. -/
inductive Json where
  | null
  | bool (b : Bool)
  | num (n : Int)
  | str (s : String)
  | arr (elems : List Json)
  | obj (fields : List (String × Json))

/-- The state of the data file the repository reads. -/
inductive FileState where
  | missing
  | unparseable
  | parsed (j : Json)

/-- The store as rehydrated by load: by_day holds whatever JSON value the
document carried under "by_day", with no validation (from_json, line 242). -/
structure RawStore where
  by_day : Json

/-- UsageStore.from_json (lines 240-242): data.get("by_day", {}) — on a
JSON object this reads the by_day member, defaulting to an empty object;
on any non-object the attribute access raises. -/
def from_json (data : Json) : Except Unit RawStore :=
  match data with
  | .obj fields => .ok ⟨(dictGet fields "by_day").getD (.obj [])⟩
  | _ => .error ()

/-- UsageRepository.load (lines 258-267): an absent file yields an empty
store; otherwise the parse-and-rehydrate is attempted under a catch-all
except that yields an empty store. -/
def load (file : FileState) : RawStore :=
  match file with
  | .missing => ⟨.obj []⟩
  | .unparseable => ⟨.obj []⟩
  | .parsed j =>
    match from_json j with
    | .ok s => s
    | .error _ => ⟨.obj []⟩

/-- The serialized per-day record, {"down": d, "up": u}. -/
def encodeDay (v : DayVals) : Json :=
  .obj [("down", .num v.down), ("up", .num v.up)]

/-- The serialized by_day mapping. -/
def encodeByDay (m : List (String × DayVals)) : Json :=
  .obj (m.map fun p => (p.1, encodeDay p.2))

/-- UsageStore.to_json (lines 237-238): the document {"by_day": ...}. -/
def to_json (s : UsageStore) : Json :=
  .obj [("by_day", encodeByDay s.by_day)]

/-- UsageRepository.save (lines 269-274): the document json.dump writes,
which the atomic replace installs as the new file content. -/
def save (s : UsageStore) : FileState :=
  .parsed (to_json s)

/-- Read one rehydrated per-day record back as typed totals, the way
get_today reads it on the loaded store: member access with default 0 for
the "down" and "up" keys, defined only when both are integers. -/
def decodeDay (j : Json) : Option DayVals :=
  match j with
  | .obj dv =>
    match (dictGet dv "down").getD (.num 0), (dictGet dv "up").getD (.num 0) with
    | .num d, .num u => some ⟨d, u⟩
    | _, _ => none
  | _ => none

/-- Read a rehydrated by_day object back as the typed day-key mapping,
entry by entry in order. -/
def decodeEntries : List (String × Json) → Option (List (String × DayVals))
  | [] => some []
  | (k, j) :: rest =>
    match decodeDay j, decodeEntries rest with
    | some v, some vs => some ((k, v) :: vs)
    | _, _ => none

/-- Read a rehydrated by_day value back as the typed day-key mapping. -/
def decodeByDay (j : Json) : Option (List (String × DayVals)) :=
  match j with
  | .obj fields => decodeEntries fields
  | _ => none

theorem decodeDay_encodeDay (v : DayVals) : decodeDay (encodeDay v) = some v := by
  simp [decodeDay, encodeDay, dictGet]

theorem decodeEntries_encode (m : List (String × DayVals)) :
    decodeEntries (m.map fun p => (p.1, encodeDay p.2)) = some m := by
  induction m with
  | nil => rfl
  | cons p rest ih =>
    simp only [List.map_cons, decodeEntries, decodeDay_encodeDay, ih]

/-! ## Claim C6: save followed by load reproduces the day-key totals -/

/-- C6: for every ledger store, saving and then loading from the same
repository path yields a store whose rehydrated by_day carries exactly the
serialized mapping, and reading its entries back gives precisely the
original day keys with their original down and up totals. -/
theorem save_load_roundtrip (s : UsageStore) :
    (load (save s)).by_day = encodeByDay s.by_day ∧
    decodeByDay ((load (save s)).by_day) = some s.by_day := by
  have h : load (save s) = ⟨encodeByDay s.by_day⟩ := by
    simp [load, save, to_json, from_json, dictGet]
  refine ⟨by rw [h], ?_⟩
  rw [h]
  simp only [decodeByDay, encodeByDay]
  exact decodeEntries_encode s.by_day

/-- True exactly on JSON objects, the shapes whose member read succeeds. -/
def jsonIsObj : Json → Bool
  | .obj _ => true
  | _ => false

/-! ## Claim C7: what load actually returns

load never lets an exception reach the caller, and a missing file, content
json.load rejects, or a parsed document that is not an object all yield an
empty ledger; but the claim further says ANY malformed content yields an
empty ledger, and that fails: a parsed object carries its by_day member into
the returned store without validation, so malformed-but-parseable content
such as {"by_day": 5} comes back as-is, not as an empty ledger. -/

/-- Counterexample to C7 as stated: the malformed document {"by_day": 5}
loads to a store whose by_day is the number 5, which is not the empty
ledger's empty object. -/
theorem load_malformed_not_empty :
    (load (.parsed (.obj [("by_day", .num 5)]))).by_day = Json.num 5 ∧
    Json.num 5 ≠ Json.obj [] := by
  constructor
  · rfl
  · intro h
    exact Json.noConfusion h

/-- C7 amended: load never raises (it is total on every file state) and
returns the empty ledger for a missing file, for content the JSON parser
rejects, and for a parsed document that is not an object; for a parsed
object it returns the by_day member unvalidated, defaulting to an empty
object only when the member is absent. -/
theorem load_never_raises_amended :
    load .missing = ⟨.obj []⟩ ∧
    load .unparseable = ⟨.obj []⟩ ∧
    (∀ j : Json, jsonIsObj j = false → load (.parsed j) = ⟨.obj []⟩) ∧
    (∀ fields : List (String × Json),
      load (.parsed (.obj fields)) = ⟨(dictGet fields "by_day").getD (.obj [])⟩) := by
  refine ⟨rfl, rfl, ?_, fun fields => rfl⟩
  intro j hj
  cases j <;> simp_all [jsonIsObj, load, from_json]

/-- Witness for C7 amended at concrete files: a parsed top-level array
(whose member read raises and is caught) and a missing file both load as the
empty ledger. -/
theorem load_never_raises_amended_witness :
    load (.parsed (.arr [])) = ⟨.obj []⟩ ∧ load .missing = ⟨.obj []⟩ :=
  ⟨load_never_raises_amended.2.2.1 (.arr []) rfl, load_never_raises_amended.1⟩

/-! ## Interface selection (NetMonitor.refresh_ifaces, lines 395-424)

stats is the per-interface status map (name, isup) and counters the key
list of the per-NIC counter map; nic_name is the configured pin, where the
Python truthiness test treats None and the empty string as no pin. -/

/-- The fixed excluded virtual/loopback name beginnings (lines 399-402). -/
def excludedNameStarts : List String :=
  ["Loopback", "Software Loopback", "isatap", "Teredo", "vEthernet", "VMware",
   "VirtualBox", "Npcap", "NPF_", "WAN Miniport", "Bluetooth", "Hyper-V"]

/-- name.startswith(exclude_tuple): some excluded beginning starts the name. -/
def startsWithAnyExcluded (name : String) : Bool :=
  excludedNameStarts.any fun p => strStartsWith name p

/-- The inclusion loop (lines 403-410): keep an interface when it is up, its
name starts with no excluded beginning, and it appears in the counter map. -/
def filteredIfaces (stats : List (String × Bool)) (counters : List String) :
    List String :=
  (stats.filter fun p =>
      p.2 && !(startsWithAnyExcluded p.1) && counters.contains p.1).map
    fun p => p.1

/-- The pin narrowing (lines 411-413): the Python test "nic_name and
nic_name in included" short-circuits on a falsy name (None or the empty
string); a truthy configured name present in the filtered set narrows the
selection to exactly it; otherwise the filtered set stands. -/
def selectIfaces (stats : List (String × Bool)) (counters : List String)
    (nic_name : Option String) : List String :=
  let included := filteredIfaces stats counters
  match nic_name with
  | none => included
  | some n =>
    if n = "" then included
    else if included.contains n then [n] else included

/-! ## Claim C8: inclusion condition and pin fallback -/

/-- Counterexample to C8 as stated: an interface that is up and matches no
excluded beginning is still left out when it is absent from the counter
map, so inclusion is not equivalent to up-and-not-excluded alone. -/
theorem select_missing_counters_cex :
    selectIfaces [("Ethernet 2", true)] [] none = [] ∧
    startsWithAnyExcluded "Ethernet 2" = false := by
  constructor
  · rfl
  · decide

theorem mem_filteredIfaces (stats : List (String × Bool)) (counters : List String)
    (n : String) (hnd : (stats.map fun p => p.1).Nodup) :
    n ∈ filteredIfaces stats counters ↔
      dictGet stats n = some true ∧ startsWithAnyExcluded n = false ∧
        counters.contains n = true := by
  induction stats with
  | nil => simp [filteredIfaces, dictGet]
  | cons p rest ih =>
    obtain ⟨k, b⟩ := p
    have hnd2 : (rest.map fun p => p.1).Nodup := (List.nodup_cons.mp hnd).2
    have hknotin : k ∉ rest.map fun p => p.1 := (List.nodup_cons.mp hnd).1
    have hexpand : filteredIfaces ((k, b) :: rest) counters
        = if b && !(startsWithAnyExcluded k) && counters.contains k
          then k :: filteredIfaces rest counters
          else filteredIfaces rest counters := by
      simp only [filteredIfaces, List.filter_cons]
      by_cases hc : (b && !(startsWithAnyExcluded k) && counters.contains k) = true
      · rw [if_pos hc, if_pos hc, List.map_cons]
      · rw [if_neg hc, if_neg hc]
    by_cases hk : k = n
    · subst hk
      have hrest : k ∉ filteredIfaces rest counters := by
        intro hmem
        apply hknotin
        simp only [filteredIfaces, List.mem_map] at hmem
        obtain ⟨q, hq, hqe⟩ := hmem
        exact List.mem_map.mpr ⟨q, List.mem_of_mem_filter hq, hqe⟩
      have hself : dictGet ((k, b) :: rest) k = some b := by
        simp [dictGet]
      rw [hexpand]
      by_cases hc : (b && !(startsWithAnyExcluded k) && counters.contains k) = true
      · rw [if_pos hc]
        simp only [Bool.and_eq_true, Bool.not_eq_true'] at hc
        constructor
        · intro _
          rw [hself, hc.1.1]
          exact ⟨rfl, hc.1.2, hc.2⟩
        · intro _
          exact List.mem_cons_self k _
      · rw [if_neg hc]
        simp only [Bool.and_eq_true, Bool.not_eq_true'] at hc
        constructor
        · intro hmem
          exact absurd hmem hrest
        · rintro ⟨h1, h2, h3⟩
          rw [hself, Option.some.injEq] at h1
          exact absurd ⟨⟨h1, h2⟩, h3⟩ hc
    · have hks : dictGet ((k, b) :: rest) n = dictGet rest n := by
        simp [dictGet, hk]
      rw [hexpand, hks]
      by_cases hc : (b && !(startsWithAnyExcluded k) && counters.contains k) = true
      · rw [if_pos hc, List.mem_cons]
        rw [ih hnd2]
        constructor
        · rintro (he | hr)
          · exact absurd he.symm hk
          · exact hr
        · intro hr
          exact Or.inr hr
      · rw [if_neg hc]
        exact ih hnd2

/-- C8 amended: with distinct status keys, an interface is selected (before
pinning) iff it reports up, its name starts with no excluded beginning, AND
it is present in the per-NIC counter map; a truthy pinned name present in
that filtered set narrows the result to exactly it, a pinned name absent
from the filtered set silently leaves the full filtered set, and no pin
leaves the filtered set. -/
theorem select_ifaces_amended (stats : List (String × Bool))
    (counters : List String) (nic_name : Option String)
    (hnd : (stats.map fun p => p.1).Nodup) :
    (∀ n, n ∈ filteredIfaces stats counters ↔
      dictGet stats n = some true ∧ startsWithAnyExcluded n = false ∧
        counters.contains n = true) ∧
    (∀ n, nic_name = some n → n ≠ "" → n ∈ filteredIfaces stats counters →
      selectIfaces stats counters nic_name = [n]) ∧
    (∀ n, nic_name = some n → n ∉ filteredIfaces stats counters →
      selectIfaces stats counters nic_name = filteredIfaces stats counters) ∧
    (nic_name = none → selectIfaces stats counters nic_name = filteredIfaces stats counters) := by
  refine ⟨fun n => mem_filteredIfaces stats counters n hnd, ?_, ?_, ?_⟩
  · intro n hn hne hmem
    subst hn
    have hc : (filteredIfaces stats counters).contains n = true :=
      List.elem_eq_true_of_mem hmem
    simp only [selectIfaces]
    rw [if_neg hne, if_pos hc]
  · intro n hn hnot
    subst hn
    simp only [selectIfaces]
    by_cases he : n = ""
    · rw [if_pos he]
    · rw [if_neg he, if_neg]
      intro hcon
      exact hnot (List.mem_of_elem_eq_true hcon)
  · intro hn
    subst hn
    rfl

/-- Witness for C8 amended at the concrete interface set of the spec
example: Ethernet, Loopback and vEthernet all up and all with counters, no
pin: exactly Ethernet is selected; and pinning the absent name "Wi-Fi"
falls back to the same full filtered set. -/
theorem select_ifaces_amended_witness :
    selectIfaces
        [("Ethernet", true), ("Loopback Pseudo-Interface 1", true),
          ("vEthernet (Default)", true)]
        ["Ethernet", "Loopback Pseudo-Interface 1", "vEthernet (Default)"] none
      = ["Ethernet"] ∧
    selectIfaces
        [("Ethernet", true), ("Loopback Pseudo-Interface 1", true),
          ("vEthernet (Default)", true)]
        ["Ethernet", "Loopback Pseudo-Interface 1", "vEthernet (Default)"]
        (some "Wi-Fi")
      = ["Ethernet"] := by
  have h := select_ifaces_amended
    [("Ethernet", true), ("Loopback Pseudo-Interface 1", true),
      ("vEthernet (Default)", true)]
    ["Ethernet", "Loopback Pseudo-Interface 1", "vEthernet (Default)"]
    (some "Wi-Fi") (by decide)
  have hfil : filteredIfaces
      [("Ethernet", true), ("Loopback Pseudo-Interface 1", true),
        ("vEthernet (Default)", true)]
      ["Ethernet", "Loopback Pseudo-Interface 1", "vEthernet (Default)"]
      = ["Ethernet"] := by decide
  have hnot : "Wi-Fi" ∉ filteredIfaces
      [("Ethernet", true), ("Loopback Pseudo-Interface 1", true),
        ("vEthernet (Default)", true)]
      ["Ethernet", "Loopback Pseudo-Interface 1", "vEthernet (Default)"] := by
    rw [hfil]
    decide
  refine ⟨?_, (h.2.2.1 "Wi-Fi" rfl hnot).trans hfil⟩
  have h0 := select_ifaces_amended
    [("Ethernet", true), ("Loopback Pseudo-Interface 1", true),
      ("vEthernet (Default)", true)]
    ["Ethernet", "Loopback Pseudo-Interface 1", "vEthernet (Default)"]
    none (by decide)
  exact (h0.2.2.2 rfl).trans hfil

end SpeedMeter
